import Mathlib

/-!
Verification development for the Polymarket ingestion scripts
(`download_events.py`, `download_prices.py`, `download_trades.py`).

The Python sources are shallowly embedded below.  Network I/O is modelled by a
finite *script* of responses (`Resp`): the walker consumes one script element
per HTTP request it issues.  File-system effects (output files, the
`no_data.txt` marker) are recorded in explicit outcome structures, and the
output directory tree consulted by `get_already_processed_markets` is modelled
by `OutTree`.  Integer-second sleeps and Unix timestamps are `Nat`/`Int`.
-/

namespace Cmhss

/-! ## Python strings

Core `String` operations (`replace`, `startsWith`, `drop`, …) are compiled
with well-founded recursion over byte positions, which the kernel cannot
unfold, so concrete instances of the scan and shard functions could not be
settled by evaluation.  Python strings are therefore modelled as their
character sequences (`PyStr`), with structurally recursive embeddings of the
handful of `str` methods the scripts use.  String literals enter through
`String.data` (notated `str s` below). -/

/-- A Python string, as its sequence of characters. -/
abbrev PyStr : Type := List Char

/-- The characters of a Lean string literal, as a `PyStr`. -/
def str (s : String) : PyStr := s.data

/-- Python `s.startswith(p)`. -/
def startsWith (p s : PyStr) : Bool := p.isPrefixOf s

/-- Python `s.endswith(p)`. -/
def endsWith (p s : PyStr) : Bool := p.reverse.isPrefixOf s.reverse

/-- One step of Python `s.replace(pat, rep)` (nonempty `pat`): scan left to
right; at each position, if `pat` matches, emit `rep` and skip `pat`,
otherwise emit one character.  `fuel` bounds the recursion (each step consumes
at least one character, so `s.length` is always enough). -/
def replaceFuel (pat rep : PyStr) : Nat → PyStr → PyStr
  | _, [] => []
  | 0, s => s
  | fuel + 1, c :: rest =>
    if pat.isPrefixOf (c :: rest) && !pat.isEmpty then
      rep ++ replaceFuel pat rep fuel ((c :: rest).drop pat.length)
    else
      c :: replaceFuel pat rep fuel rest

/-- Python `s.replace(pat, rep)`: every occurrence of `pat` is replaced, and
(as in Python) an empty pattern is treated as matching nowhere of interest
here — the scripts only replace nonempty name fragments. -/
def replaceAll (s pat rep : PyStr) : PyStr :=
  replaceFuel pat rep s.length s

/-- Python whitespace test, for the characters that can occur in the marker
file (`str.strip` with no argument strips these). -/
def isPySpace (c : Char) : Bool :=
  c = ' ' || c = '\t' || c = '\n' || c = '\r'

/-- Python `s.strip()`. -/
def strip (s : PyStr) : PyStr :=
  ((s.dropWhile isPySpace).reverse.dropWhile isPySpace).reverse

/-- One HTTP response, as seen by the downloaders.  `success d` is a 2xx
response whose decoded JSON payload is `d`; `http429` is a rate-limit
response; `fatal` covers every non-429 HTTP error status and every transport
failure (both raise `requests.exceptions.RequestException` in the source). -/
inductive Resp (α : Type) : Type
  | success (data : α)
  | http429
  | fatal
deriving DecidableEq

/-! ## Rate-limited price fetch: `download_prices_for_market` -/

/-- Embeds `compute_start_timestamp` of `download_prices.py`.  The first
argument is the market's `endDate` parsed to a Unix timestamp (`none` when the
field is missing or `parse_iso_datetime` fails), the second is the current
Unix time (`datetime.now`).  `BUFFER_MINUTES * 60 = 72 * 60 * 60 = 259200`
seconds.  On a parsed end date the result is clamped below at `0`
(`max(start_ts, 0)`); the fallback branch has no clamp. -/
def computeStartTimestamp (endDateTs : Option Int) (now : Int) : Int :=
  match endDateTs with
  | some t => max (t - 259200) 0
  | none => now - 259200

/-- Observable outcome of one call of `download_prices_for_market`. -/
structure PricesOutcome (α : Type) where
  /-- the `startTs` value placed in the request parameters -/
  startTsUsed : Int
  /-- number of HTTP requests issued -/
  requests : Nat
  /-- backoff sleeps performed, in seconds, in order -/
  sleeps : List Nat
  /-- identifiers appended to `no_data.txt` by `save_no_data_market` -/
  markerAppends : List PyStr
  /-- `some data` iff the output file `prices_{id}.json` was written -/
  fileWritten : Option (List α)
  /-- the function's return value `total_downloaded` -/
  totalDownloaded : Nat
  /-- script exhausted before the function returned (never holds in the
  theorems below) -/
  stuck : Bool
deriving DecidableEq

/-- Embeds `download_prices_for_market` of `download_prices.py`.  The payload
of a success response is the `history` array of the decoded JSON object (an
absent or empty `history`, or a falsy body, is the empty list).  Note the
source retries a 429 by *recursion*: the retry is a fresh call, whose first
statement re-binds `backoff = INITIAL_BACKOFF = 1`, so the doubled value
computed after the sleep is discarded. -/
def downloadPricesForMarket (marketId : PyStr) (endDateTs : Option Int)
    (now : Int) : List (Resp (List α)) → PricesOutcome α
  | [] => ⟨computeStartTimestamp endDateTs now, 0, [], [], none, 0, true⟩
  | r :: rest =>
    let startTs := computeStartTimestamp endDateTs now
    let backoff : Nat := 1  -- INITIAL_BACKOFF
    match r with
    | Resp.success data =>
      if data.isEmpty then
        -- `save_no_data_market(market_id)`, no output file
        ⟨startTs, 1, [], [marketId], none, 0, false⟩
      else
        -- write `data` to the shard file, return `len(history)`
        ⟨startTs, 1, [], [], some data, data.length, false⟩
    | Resp.http429 =>
      -- `time.sleep(backoff)`, then `backoff = min(backoff*2, 60)` — the
      -- updated local is dead: the recursive retry call re-initializes it
      let o := downloadPricesForMarket marketId endDateTs now rest
      ⟨startTs, o.requests + 1, backoff :: o.sleeps, o.markerAppends,
        o.fileWritten, o.totalDownloaded, o.stuck⟩
    | Resp.fatal =>
      -- logged and swallowed; returns the current `total_downloaded = 0`
      ⟨startTs, 1, [], [], none, 0, false⟩

/-! ## Streaming trade fetch: `download_and_save_trades` -/

/-- Observable outcome of one call of `download_and_save_trades`. -/
structure TradesOutcome (α : Type) where
  /-- the gzip output file `trades_{id}.json.gz` exists on disk after the
  call.  `gzip.open(filename, 'wt')` creates the file before the first
  request, and nothing ever deletes it, so this is `true` on every path of
  the function body (the model assumes file I/O itself succeeds). -/
  fileCreated : Bool
  /-- records written into the file, in order -/
  written : List α
  /-- backoff sleeps performed after 429 responses, in seconds, in order -/
  sleeps : List Nat
  /-- value of the `backoff` variable when the function returned -/
  finalBackoff : Nat
  /-- number of HTTP requests issued -/
  requests : Nat
  /-- return value: `some total_trades` on the normal paths, `none` when a
  `RequestException` was caught (the source's `return None`) -/
  result : Option Nat
  /-- script exhausted before the function returned (never holds in the
  theorems below) -/
  stuck : Bool
deriving DecidableEq

/-- The `while True` page loop of `download_and_save_trades`, with the
accumulated file contents, current backoff, request count and sleep log made
explicit. -/
def tradesLoop (limit : Nat) (acc : List α) (backoff : Nat) (reqs : Nat)
    (sleeps : List Nat) : List (Resp (List α)) → TradesOutcome α
  | [] => ⟨true, acc, sleeps, backoff, reqs, none, true⟩
  | Resp.http429 :: rest =>
    -- sleep, double (capped at 60), retry the same request
    tradesLoop limit acc (min (backoff * 2) 60) (reqs + 1)
      (sleeps ++ [backoff]) rest
  | Resp.success page :: rest =>
    -- `raise_for_status()` passed; `backoff = 1  # Reset backoff on success`
    if page.isEmpty then
      -- `if not trades: break` — close the array and return the total
      ⟨true, acc, sleeps, 1, reqs + 1, some acc.length, false⟩
    else if page.length < limit then
      -- short page: write it, then break
      ⟨true, acc ++ page, sleeps, 1, reqs + 1,
        some (acc.length + page.length), false⟩
    else
      -- full page: write it, advance the offset, politeness sleep, loop
      tradesLoop limit (acc ++ page) 1 (reqs + 1) sleeps rest
  | Resp.fatal :: _ =>
    -- `except requests.exceptions.RequestException: ... return None`
    ⟨true, acc, sleeps, backoff, reqs + 1, none, false⟩

/-- Embeds `download_and_save_trades` of `download_trades.py` (the source
fixes `limit = 500`; it is a parameter here so the simulated page sizes of the
spec's test vectors can be expressed).  The gzip output file is created, and
`'[\n'` written, before the loop starts.  No path of this function touches the
no-data marker file. -/
def downloadAndSaveTrades (conditionId : PyStr) (limit : Nat)
    (script : List (Resp (List α))) : TradesOutcome α :=
  tradesLoop limit [] 1 0 [] script

/-! ## Events listing loop: `download_events.py` -/

/-- Observable outcome of the main loop of `download_events.py`. -/
structure EventsOutcome (α : Type) where
  /-- pages saved, one output file per page, in order -/
  saved : List (List α)
  /-- number of HTTP requests issued -/
  requests : Nat
  /-- script exhausted before the loop broke -/
  stuck : Bool
deriving DecidableEq

/-- Embeds the `while True` loop of `download_events.py` (`LIMIT = 100` in the
source; a parameter here).  There is no 429 special case in this script:
`raise_for_status` turns any non-2xx status into a `RequestException`, which
breaks the loop, so `http429` and `fatal` take the same branch. -/
def eventsLoop (limit : Nat) (saved : List (List α)) (reqs : Nat) :
    List (Resp (List α)) → EventsOutcome α
  | [] => ⟨saved, reqs, true⟩
  | Resp.success data :: rest =>
    if data.isEmpty then
      -- `if not data or len(data) == 0: break` — nothing saved for this page
      ⟨saved, reqs + 1, false⟩
    else if data.length < limit then
      -- save, then `if len(data) < LIMIT: break`
      ⟨saved ++ [data], reqs + 1, false⟩
    else
      eventsLoop limit (saved ++ [data]) (reqs + 1) rest
  | Resp.http429 :: _ => ⟨saved, reqs + 1, false⟩
  | Resp.fatal :: _ => ⟨saved, reqs + 1, false⟩

/-! ## Shard router: `get_subdirectory_for_market` -/

/-- Renders `n` like the Python format spec `03d`: decimal, left-padded with
zeros to width 3. -/
def pad3 (n : Nat) : PyStr :=
  if n < 10 then '0' :: '0' :: Nat.toDigits 10 n
  else if n < 100 then '0' :: Nat.toDigits 10 n
  else Nat.toDigits 10 n

/-- Value of a hexadecimal digit character, `none` for any other character. -/
def hexDigitVal (c : Char) : Option Nat :=
  if '0' ≤ c ∧ c ≤ '9' then some (c.toNat - 48)
  else if 'a' ≤ c ∧ c ≤ 'f' then some (c.toNat - 87)
  else if 'A' ≤ c ∧ c ≤ 'F' then some (c.toNat - 55)
  else none

/-- Value of a decimal digit character, `none` for any other character. -/
def decDigitVal (c : Char) : Option Nat :=
  if '0' ≤ c ∧ c ≤ '9' then some (c.toNat - 48) else none

/-- Folds digit values into a number, failing on the first non-digit. -/
def digitsFold (digitVal : Char → Option Nat) (base : Nat) (s : PyStr) :
    Option Nat :=
  s.foldl
    (fun acc c =>
      match acc, digitVal c with
      | some a, some d => some (a * base + d)
      | _, _ => none)
    (some 0)

/-- Models Python `int(s, 16)` on the identifier shapes that occur here: an
optional `0x`/`0X` marker followed by a nonempty run of hex digits parses to
its value, anything else raises `ValueError` (modelled as `none`).  (Python
additionally tolerates surrounding whitespace, a sign and underscores, none of
which occur in market identifiers.) -/
def hexParse (s : PyStr) : Option Nat :=
  let t := if startsWith (str "0x") s || startsWith (str "0X") s
    then s.drop 2 else s
  if t.isEmpty then none else digitsFold hexDigitVal 16 t

/-- Models Python `int(s)` (base 10) likewise: a nonempty run of decimal
digits, otherwise `ValueError` (`none`). -/
def decParse (s : PyStr) : Option Nat :=
  if s.isEmpty then none else digitsFold decDigitVal 10 s

/-- Embeds `get_subdirectory_for_market` of `download_trades.py`: the
condition id is parsed as hex, bucketed mod `SUBDIRECTORY_MOD = 1000`, and a
`ValueError` falls back to the `trades_misc` directory.  Returns the shard
directory name (the `mkdir` side effect is not modelled). -/
def tradesSubdir (marketId : PyStr) : PyStr :=
  match hexParse marketId with
  | some n => str "trades_" ++ pad3 (n % 1000)
  | none => str "trades_misc"

/-- Embeds `get_subdirectory_for_market` of `download_prices.py`:
`int(market_id) % SUBDIRECTORY_MOD` with *no* exception handler — a
non-decimal identifier raises `ValueError` out of the function, modelled as
`none`. -/
def pricesSubdir (marketId : PyStr) : Option PyStr :=
  (decParse marketId).map (fun n => str "prices_" ++ pad3 (n % 1000))

/-! ## Progress store: `get_already_processed_markets` -/

/-- One entry of the output directory root: a subdirectory with its list of
file names, or a plain file. -/
inductive RootItem : Type
  | dir (name : PyStr) (files : List PyStr)
  | file (name : PyStr)
deriving DecidableEq

/-- The on-disk state consulted by `get_already_processed_markets`: the
entries of the output root, and the lines of `no_data.txt` (`none` when the
marker file does not exist; line strings carry no trailing newline). -/
structure OutTree : Type where
  rootItems : List RootItem
  markerLines : Option (List PyStr)
deriving DecidableEq

/-- Identifier extraction of `download_prices.py`:
`filename.replace("prices_", "").replace(".json", "")` (Python `str.replace`
replaces every occurrence). -/
def extractPricesId (filename : PyStr) : PyStr :=
  replaceAll (replaceAll filename (str "prices_") []) (str ".json") []

/-- Identifier extraction of `download_trades.py`:
`filename.replace("trades_", "").replace(".json.gz", "").replace(".json", "")`. -/
def extractTradesId (filename : PyStr) : PyStr :=
  replaceAll
    (replaceAll (replaceAll filename (str "trades_") []) (str ".json.gz") [])
    (str ".json") []

/-- Per-root-item contribution of the sharded branch of the prices scan:
inside each directory whose name starts with `prices_`, every file named
`prices_*.json` yields an identifier. -/
def pricesDirContrib : RootItem → List PyStr
  | RootItem.dir name files =>
    if startsWith (str "prices_") name then
      (files.filter
        (fun f => startsWith (str "prices_") f && endsWith (str ".json") f)).map
        extractPricesId
    else []
  | RootItem.file _ => []

/-- Per-root-item contribution of the legacy flat branch of the prices scan:
a plain file `prices_*.json` directly under the output root yields an
identifier. -/
def pricesFlatContrib : RootItem → List PyStr
  | RootItem.dir _ _ => []
  | RootItem.file name =>
    if startsWith (str "prices_") name && endsWith (str ".json") name then
      [extractPricesId name]
    else []

/-- Marker-file contribution of the prices scan: each line is stripped and
added only if nonempty (`if market_id: processed.add(market_id)`). -/
def pricesMarkerIds (t : OutTree) : List PyStr :=
  ((t.markerLines.getD []).map strip).filter (fun s => !s.isEmpty)

/-- Embeds `get_already_processed_markets` of `download_prices.py`.  The
Python function returns a `set`; membership in this list is the observable
modelled. -/
def scanPrices (t : OutTree) : List PyStr :=
  t.rootItems.flatMap (fun it => pricesDirContrib it ++ pricesFlatContrib it)
    ++ pricesMarkerIds t

/-- Per-root-item contribution of the sharded branch of the trades scan:
inside each directory whose name starts with `trades_`, every file named
`trades_*.json` or `trades_*.json.gz` yields an identifier.  Plain files at
the root are ignored entirely — this scan has no legacy flat branch. -/
def tradesDirContrib : RootItem → List PyStr
  | RootItem.dir name files =>
    if startsWith (str "trades_") name then
      (files.filter
        (fun f => startsWith (str "trades_") f
          && (endsWith (str ".json") f || endsWith (str ".json.gz") f))).map
        extractTradesId
    else []
  | RootItem.file _ => []

/-- Marker-file contribution of the trades scan: every line is stripped and
added, with no emptiness check (`processed.add(line.strip())`). -/
def tradesMarkerIdsAll (t : OutTree) : List PyStr :=
  (t.markerLines.getD []).map strip

/-- Embeds `get_already_processed_markets` of `download_trades.py`. -/
def scanTrades (t : OutTree) : List PyStr :=
  t.rootItems.flatMap tradesDirContrib ++ tradesMarkerIdsAll t

/-- Legacy flat contribution the specification describes for the trades
store: a plain file of the `trades_…` naming convention directly under the
output root.  This definition follows the spec's words (claim C6), for
comparison with `scanTrades`. -/
def tradesFlatContribPerSpec : RootItem → List PyStr
  | RootItem.dir _ _ => []
  | RootItem.file name =>
    if startsWith (str "trades_") name
        && (endsWith (str ".json") name || endsWith (str ".json.gz") name) then
      [extractTradesId name]
    else []

/-- The scan the specification describes for the trades store (claim C6's
three-way union): sharded files, legacy flat files of the same naming
convention, and the nonempty stripped marker lines.  Follows the spec's
words, for comparison with `scanTrades`. -/
def tradesScanPerSpec (t : OutTree) : List PyStr :=
  t.rootItems.flatMap tradesDirContrib
    ++ t.rootItems.flatMap tradesFlatContribPerSpec
    ++ ((t.markerLines.getD []).map strip).filter (fun s => !s.isEmpty)

/-- The output tree produced by one `download_and_save_trades` run for
`conditionId` in an initially empty output directory:
`get_subdirectory_for_market` creates the shard directory and `gzip.open`
creates the output file inside it before the first request, and neither is
ever removed, so the file is present exactly when the outcome records it
(`fileCreated`).  No run of `download_trades.py` ever writes the marker
file. -/
def tradesTreeAfter (conditionId : PyStr) (o : TradesOutcome α) : OutTree :=
  { rootItems :=
      if o.fileCreated then
        [RootItem.dir (tradesSubdir conditionId)
          [str "trades_" ++ conditionId ++ str ".json.gz"]]
      else []
    markerLines := none }

/-! ## Work enumerators: `get_all_markets`, `get_all_markets_with_volume` -/

/-- The fields of a market object that the enumerators consult.  `volumeNum`
is `none` when the field is absent (`market.get('volumeNum', 0)` then yields
`0`); volumes are modelled as integers, only their ordering matters.
`clobTokenIds` is the parse status of the JSON-string-encoded token id array:
`none` when the field is absent or falsy (`if clob_token_ids:` fails),
`some none` when `json.loads` raises, `some (some l)` when it parses to `l`. -/
structure Market : Type where
  conditionId : Option PyStr := none
  volumeNum : Option Int := none
  clobTokenIds : Option (Option (List PyStr)) := none
deriving DecidableEq

/-- An event object: `markets` is `none` when the key is absent
(`if 'markets' in event:`). -/
structure Event : Type where
  markets : Option (List Market) := none
deriving DecidableEq

/-- The token ids contributed by one market in `get_all_markets`: none when
the field is absent/falsy, fails to parse, or parses to an empty array
(`if token_ids:`). -/
def tokensOf (m : Market) : List PyStr :=
  match m.clobTokenIds with
  | some (some l) => l
  | _ => []

/-- A Python dict with `PyStr` keys, as its insertion-ordered entry list
(keys are unique). -/
abbrev Dict : Type := List (PyStr × Market)

/-- Python `d[k] = v`: replace the value at an existing key in place, or
append a new entry. -/
def dictInsert : Dict → PyStr → Market → Dict
  | [], k, v => [(k, v)]
  | p :: rest, k, v =>
    if p.1 = k then (k, v) :: rest else p :: dictInsert rest k v

/-- Python `d.get(k)` / `d[k]` membership: the value stored at `k`. -/
def dictFind (d : Dict) (k : PyStr) : Option Market :=
  (d.find? (fun p => p.1 = k)).map (fun p => p.2)

/-- The inner token loop of `get_all_markets`: `markets[token_id] = market`
for each token id of `m`. -/
def insertMarketTokens (d : Dict) (m : Market) : Dict :=
  (tokensOf m).foldl (fun d t => dictInsert d t m) d

/-- The market loop of `get_all_markets` over one event. -/
def insertEventMarkets (d : Dict) (e : Event) : Dict :=
  (e.markets.getD []).foldl insertMarketTokens d

/-- The event loop of `get_all_markets` over the events of any number of
files, threading the single `markets = {}` dict. -/
def insertEventsDict (d : Dict) (events : List Event) : Dict :=
  events.foldl insertEventMarkets d

/-- Embeds `get_all_markets` of `download_prices.py`, for a given decoded
event list (the per-file decoding layer is `pricesEnumFiles` below). -/
def getAllMarkets (events : List Event) : Dict :=
  insertEventsDict [] events

/-- All `(token id, market)` assignment occurrences performed by
`get_all_markets`, in program order. -/
def occsOf (events : List Event) : List (PyStr × Market) :=
  events.flatMap
    (fun e => (e.markets.getD []).flatMap
      (fun m => (tokensOf m).map (fun t => (t, m))))

/-- Embeds `get_all_markets` of `download_prices.py` over the parse results
of the sorted event files: `events = json.load(f)` has *no* exception
handler, so a file that fails to decode (`none`) raises out of the function —
modelled by an `Option` result that is `none` from that point on. -/
def pricesEnumFiles (files : List (Option (List Event))) :
    Option Dict :=
  files.foldl
    (fun acc f =>
      match acc, f with
      | none, _ => none
      | some _, none => none
      | some d, some events => some (insertEventsDict d events))
    (some [])

/-- One target of the trades enumeration: a condition id with its volume. -/
structure MarketV : Type where
  conditionId : PyStr
  volume : Int
deriving DecidableEq

/-- The nested event/market loops of `get_all_markets_with_volume` over one
decoded event list, appending to the running `markets` list.  A market
without a truthy `conditionId` (absent or the empty string) is skipped;
`volume = market.get('volumeNum', 0)`. -/
def tradesMarketsFromEvents (acc : List MarketV) (events : List Event) :
    List MarketV :=
  events.foldl
    (fun acc e =>
      (e.markets.getD []).foldl
        (fun acc m =>
          match m.conditionId with
          | some cid =>
            if cid.isEmpty then acc
            else acc ++ [⟨cid, m.volumeNum.getD 0⟩]
          | none => acc)
        acc)
    acc

/-- The trades enumeration over one decoded event list. -/
def marketsOfEvents (events : List Event) : List MarketV :=
  tradesMarketsFromEvents [] events

/-- Embeds `get_all_markets_with_volume` of `download_trades.py` over the
parse results of the sorted event files: `json.load` is wrapped in
`try/except json.JSONDecodeError`, so a file that fails to decode (`none`)
is reported and skipped (`continue`). -/
def tradesEnumFiles (files : List (Option (List Event))) : List MarketV :=
  files.foldl
    (fun acc f =>
      match f with
      | none => acc
      | some events => tradesMarketsFromEvents acc events)
    []

/-! ## Volume filtering: `filter_top_markets` -/

/-- The descending-volume ordering used by
`sorted(markets, key=lambda x: x['volume'], reverse=True)`. -/
def volGE (a b : MarketV) : Prop := b.volume ≤ a.volume

instance : DecidableRel volGE :=
  fun a b => inferInstanceAs (Decidable (b.volume ≤ a.volume))

instance : IsTotal MarketV volGE :=
  ⟨fun a b => (le_total b.volume a.volume).imp id id⟩

instance : IsTrans MarketV volGE :=
  ⟨fun _ _ _ h h2 => le_trans h2 h⟩

/-- Embeds `filter_top_markets` of `download_trades.py`.  The percentile is a
rational; Python evaluates `int(count * percentile)` in binary floating
point, which for the percentile `1/10` used by `main` agrees with exact
arithmetic (truncation of a nonnegative value is its floor) at every list
length arising in practice.  `sorted` is a stable descending sort, which
`List.insertionSort volGE` reproduces. -/
def filterTopMarkets (markets : List MarketV) (percentile : ℚ) :
    List MarketV :=
  if markets.isEmpty then []
  else
    let sortedMarkets := List.insertionSort volGE markets
    let count := markets.length
    let cutoffIndex := (⌊(count : ℚ) * percentile⌋).toNat
    let cutoffIndex := if cutoffIndex = 0 ∧ 0 < count then 1 else cutoffIndex
    sortedMarkets.take cutoffIndex

/-! ## Driver filtering -/

/-- The driver's subtraction of the done-set from the candidate list
(`[m for m in top_markets if m['conditionId'] not in processed_markets]` and
the `if market_id in already_processed: continue` loop of
`download_prices.py`): the candidates whose identifier the scan does not
contain, in order. -/
def remainingTargets (candidates : List PyStr) (done : List PyStr) :
    List PyStr :=
  candidates.filter (fun c => !done.contains c)

/-! ## Claim C1: empty first page -/

/-- C1 counterexample.  The claim states that a target whose very first page
has zero records is appended to the marker file and gets no output file.  In
the trades variant the gzip output file is opened — and hence created —
before the first request, so after an empty first page the output file for
the target exists (holding an empty JSON array) and the run returns `0`
trades as a success; `download_trades.py` never writes the marker file at
all. -/
theorem c1_trades_empty_first_page_creates_file :
    (downloadAndSaveTrades (str "ab") 500
      [Resp.success ([] : List Nat)]).fileCreated = true
    ∧ (downloadAndSaveTrades (str "ab") 500
      [Resp.success ([] : List Nat)]).result = some 0 := by
  decide

/-- C1 (amended).  In the price-history variant, a target whose very first
fetch yields an empty history is appended to the no-data marker and no output
file is written for it.  In the trades variant, an empty first page appends
nothing to any marker; instead the (empty-array) output file named for the
identifier exists after the run, and the identifier consequently appears in
the next run's scan via that output file. -/
theorem c1_empty_first_page_amended (id : PyStr) (md : Option Int)
    (now : Int) :
    ((downloadPricesForMarket id md now
        [Resp.success ([] : List Nat)]).markerAppends = [id]
      ∧ (downloadPricesForMarket id md now
        [Resp.success ([] : List Nat)]).fileWritten = none
      ∧ (downloadPricesForMarket id md now
        [Resp.success ([] : List Nat)]).totalDownloaded = 0)
    ∧ ((downloadAndSaveTrades (str "ab") 500
        [Resp.success ([] : List Nat)]).fileCreated = true
      ∧ (downloadAndSaveTrades (str "ab") 500
        [Resp.success ([] : List Nat)]).written = []
      ∧ (downloadAndSaveTrades (str "ab") 500
        [Resp.success ([] : List Nat)]).result = some 0
      ∧ str "ab" ∈ scanTrades (tradesTreeAfter (str "ab")
          (downloadAndSaveTrades (str "ab") 500
            [Resp.success ([] : List Nat)]))) :=
  ⟨⟨rfl, rfl, rfl⟩, by decide⟩

/-! ## Claim C2: fatal fetch error mid-sequence -/

/-- C2.  Evaluation at the failing input: trades target `ab`, page size 2,
one full page then a transport failure.  The run returns `None` (failure),
yet the partially written `trades_ab.json.gz` exists in the shard directory,
so the next run's scan contains `ab` and the driver's candidate filter drops
the target — it is in the done-set and is never retried, contrary to the
claim (and to the spec's requirement that a partial streamed file never be
treated as valid). -/
theorem c2_fatal_error_leaves_target_in_done_set :
    (downloadAndSaveTrades (str "ab") 2
      [Resp.success [(5 : Nat), 6], Resp.fatal]).result = none
    ∧ (downloadAndSaveTrades (str "ab") 2
      [Resp.success [(5 : Nat), 6], Resp.fatal]).written = [5, 6]
    ∧ (downloadAndSaveTrades (str "ab") 2
      [Resp.success [(5 : Nat), 6], Resp.fatal]).fileCreated = true
    ∧ str "ab" ∈ scanTrades (tradesTreeAfter (str "ab")
        (downloadAndSaveTrades (str "ab") 2
          [Resp.success [(5 : Nat), 6], Resp.fatal]))
    ∧ remainingTargets [str "ab"]
        (scanTrades (tradesTreeAfter (str "ab")
          (downloadAndSaveTrades (str "ab") 2
            [Resp.success [(5 : Nat), 6], Resp.fatal]))) = [] := by
  decide

/-! ## Claim C3: backoff doubling and reset -/

/-- C3.  Evaluation at the failing input: three consecutive 429 responses
followed by a success.  The trades variant sleeps `1s, 2s, 4s` and its
backoff is back to `1s` after the success, as the claim states; the prices
variant sleeps `1s, 1s, 1s` — its retry is a fresh recursive call that
re-initializes `backoff = INITIAL_BACKOFF`, so the doubled value is
discarded and the wait never grows. -/
theorem c3_backoff_429_sequence_eval :
    (downloadPricesForMarket (str "7") none 0
      [Resp.http429, Resp.http429, Resp.http429,
        Resp.success [(0 : Nat)]]).sleeps = [1, 1, 1]
    ∧ (downloadAndSaveTrades (str "ab") 500
      [Resp.http429, Resp.http429, Resp.http429,
        Resp.success [(0 : Nat)]]).sleeps = [1, 2, 4]
    ∧ (downloadAndSaveTrades (str "ab") 500
      [Resp.http429, Resp.http429, Resp.http429,
        Resp.success [(0 : Nat)]]).finalBackoff = 1
    ∧ (downloadAndSaveTrades (str "ab") 500
      [Resp.http429, Resp.http429, Resp.http429,
        Resp.success [(0 : Nat)]]).result = some 1 := by
  decide

/-! ## Claim C4: de-duplication in entity extraction -/

/-- C4 counterexample.  The claim states that a later occurrence of the same
identifier is ignored and the stored metadata comes from the first
occurrence.  With token `t` carried by two distinct markets in order, the
prices enumeration stores the *second* market under `t`: the Python dict
assignment `markets[token_id] = market` overwrites. -/
theorem c4_duplicate_token_keeps_last :
    dictFind
      (getAllMarkets
        [⟨some [⟨none, some 1, some (some [str "t"])⟩]⟩,
          ⟨some [⟨none, some 2, some (some [str "t"])⟩]⟩])
      (str "t") = some ⟨none, some 2, some (some [str "t"])⟩
    ∧ (⟨none, some 1, some (some [str "t"])⟩ : Market)
      ≠ ⟨none, some 2, some (some [str "t"])⟩ := by
  decide

/-! ## Claim C5: malformed input artifact -/

/-- C5 counterexample.  The claim states that a malformed artifact is skipped
and the remaining files are still extracted.  In the prices enumeration
`json.load` has no handler: with a malformed first file followed by a
well-formed file carrying token `t`, the run raises and extracts nothing —
though the well-formed file alone would have yielded `t`. -/
theorem c5_malformed_file_aborts_prices :
    pricesEnumFiles
      [none, some [⟨some [⟨none, none, some (some [str "t"])⟩]⟩]] = none
    ∧ pricesEnumFiles
      [some [⟨some [⟨none, none, some (some [str "t"])⟩]⟩]]
      = some [(str "t", ⟨none, none, some (some [str "t"])⟩)] := by
  decide

/-! ## Claim C6: the scan union -/

/-- C6 counterexample.  The claim states that both scans include identifiers
of legacy flat files directly under the output root.  The trades scan only
descends into shard subdirectories: a flat `trades_abc.json.gz` at the root
is invisible to it, though the spec's union contains `abc`. -/
theorem c6_trades_scan_misses_legacy_flat :
    str "abc" ∈ tradesScanPerSpec
      ⟨[RootItem.file (str "trades_abc.json.gz")], none⟩
    ∧ str "abc" ∉ scanTrades
      ⟨[RootItem.file (str "trades_abc.json.gz")], none⟩ := by
  decide

/-! ## Claim C7: shard bucketing -/

/-- C7 counterexample.  The claim states the bucket function is total, with
a fallback bucket for unparseable identifiers, and buckets decimal ids by
`id mod 1000`.  The prices variant raises `ValueError` on a non-decimal id
(no fallback), and the trades variant parses the decimal id `10` as hex,
bucketing it at `16`, not `10`. -/
theorem c7_bucket_counterexample :
    pricesSubdir (str "zz") = none
    ∧ tradesSubdir (str "10") = str "trades_016" := by
  decide

/-- C6 (amended).  The prices scan is exactly the union the claim describes:
sharded identifiers, legacy flat-file identifiers, and the nonempty stripped
marker lines.  The trades scan unions only its sharded identifiers with the
stripped marker lines (empty lines included); it has no legacy flat branch.
The resume consequence holds in both variants: with sharded output files for
targets 1 and 3 and a marker line for 2, the driver's filter over candidates
1,2,3,4 keeps exactly 4. -/
theorem c6_scan_union_amended :
    (∀ (t : OutTree) (x : PyStr),
      x ∈ scanPrices t ↔
        x ∈ t.rootItems.flatMap pricesDirContrib
        ∨ x ∈ t.rootItems.flatMap pricesFlatContrib
        ∨ x ∈ pricesMarkerIds t)
    ∧ (∀ (t : OutTree) (x : PyStr),
      x ∈ scanTrades t ↔
        x ∈ t.rootItems.flatMap tradesDirContrib ∨ x ∈ tradesMarkerIdsAll t)
    ∧ remainingTargets [str "1", str "2", str "3", str "4"]
        (scanPrices
          ⟨[RootItem.dir (str "prices_001") [str "prices_1.json"],
            RootItem.dir (str "prices_003") [str "prices_3.json"]],
            some [str "2"]⟩) = [str "4"]
    ∧ remainingTargets [str "1", str "2", str "3", str "4"]
        (scanTrades
          ⟨[RootItem.dir (str "trades_001") [str "trades_1.json.gz"],
            RootItem.dir (str "trades_003") [str "trades_3.json.gz"]],
            some [str "2"]⟩) = [str "4"] := by
  refine ⟨?_, ?_, by decide, by decide⟩
  · intro t x
    simp only [scanPrices, List.mem_append, List.mem_flatMap]
    constructor
    · rintro (⟨it, hit, h | h⟩ | hm)
      · exact Or.inl ⟨it, hit, h⟩
      · exact Or.inr (Or.inl ⟨it, hit, h⟩)
      · exact Or.inr (Or.inr hm)
    · rintro (⟨it, hit, h⟩ | ⟨it, hit, h⟩ | hm)
      · exact Or.inl ⟨it, hit, Or.inl h⟩
      · exact Or.inl ⟨it, hit, Or.inr h⟩
      · exact Or.inr hm
  · intro t x
    exact List.mem_append

/-- C7 (amended).  Both bucket functions are pure, deterministic functions
of the identifier string.  The trades variant is total: a hex-parseable id
(a decimal-digit id is parsed as hex too) goes to bucket
`int(id, 16) mod 1000`, in `[0, 1000)`, and an unparseable id goes to the
designated `trades_misc` fallback.  The prices variant maps a decimal id to
bucket `int(id) mod 1000`, in `[0, 1000)`, and raises on any other id — it
has no fallback. -/
theorem c7_bucket_amended :
    (∀ (id : PyStr) (n : Nat), hexParse id = some n →
      tradesSubdir id = str "trades_" ++ pad3 (n % 1000) ∧ n % 1000 < 1000)
    ∧ (∀ id : PyStr, hexParse id = none →
      tradesSubdir id = str "trades_misc")
    ∧ (∀ (id : PyStr) (n : Nat), decParse id = some n →
      pricesSubdir id = some (str "prices_" ++ pad3 (n % 1000))
        ∧ n % 1000 < 1000)
    ∧ (∀ id : PyStr, decParse id = none → pricesSubdir id = none) := by
  refine ⟨?_, ?_, ?_, ?_⟩
  · intro id n h
    refine ⟨?_, Nat.mod_lt _ (by norm_num)⟩
    simp [tradesSubdir, h]
  · intro id h
    simp [tradesSubdir, h]
  · intro id n h
    refine ⟨?_, Nat.mod_lt _ (by norm_num)⟩
    simp [pricesSubdir, h]
  · intro id h
    simp [pricesSubdir, h]

/-- C7 witness: concrete instantiations of every branch of
`c7_bucket_amended` — the hex id `ab` (value 171), the unparseable id `zz`,
and the decimal id `1234`. -/
theorem c7_bucket_amended_witness :
    (hexParse (str "ab") = some 171
      ∧ tradesSubdir (str "ab") = str "trades_" ++ pad3 (171 % 1000))
    ∧ (hexParse (str "zz") = none
      ∧ tradesSubdir (str "zz") = str "trades_misc")
    ∧ (decParse (str "1234") = some 1234
      ∧ pricesSubdir (str "1234")
        = some (str "prices_" ++ pad3 (1234 % 1000)))
    ∧ (decParse (str "ab") = none ∧ pricesSubdir (str "ab") = none) :=
  ⟨⟨by decide, (c7_bucket_amended.1 (str "ab") 171 (by decide)).1⟩,
    ⟨by decide, c7_bucket_amended.2.1 (str "zz") (by decide)⟩,
    ⟨by decide, (c7_bucket_amended.2.2.1 (str "1234") 1234 (by decide)).1⟩,
    ⟨by decide, c7_bucket_amended.2.2.2 (str "ab") (by decide)⟩⟩

/-! ## Claim C10: single-request price window -/

/-- C10.  For the price-history variant: the `startTs` parameter is the
market's end date as a Unix timestamp minus 72 hours (259200 s), clamped
below at 0, and the current time minus 72 hours when the end date is missing
or unparseable; and a successful processing issues exactly one page request
— whatever further responses the server could have produced (`rest`) are
never requested, i.e. there is no offset-based pagination loop. -/
theorem c10_prices_single_request_window (id : PyStr) (t now : Int)
    (d : List Nat) (rest : List (Resp (List Nat))) :
    computeStartTimestamp (some t) now = max (t - 259200) 0
    ∧ computeStartTimestamp none now = now - 259200
    ∧ (downloadPricesForMarket id (some t) now
        (Resp.success d :: rest)).requests = 1
    ∧ (downloadPricesForMarket id (some t) now
        (Resp.success d :: rest)).startTsUsed
      = computeStartTimestamp (some t) now
    ∧ (downloadPricesForMarket id none now
        (Resp.success d :: rest)).requests = 1 := by
  refine ⟨rfl, rfl, ?_, ?_, ?_⟩ <;> cases d <;> rfl

/-! ## Claim C8: pagination termination -/

/-- Generic run of the trades page loop over a script of successful pages:
if the pages before index `k` are full-sized and page `k` is the first short
one, the loop persists exactly the concatenation of pages `0..k`, issues
`k + 1` requests, ends with backoff reset to 1, and succeeds — never touching
the script beyond page `k`. -/
theorem tradesLoop_success_script (limit : Nat) (hlim : 0 < limit) :
    ∀ (k : Nat) (pages : List (List α)) (acc : List α)
      (backoff reqs : Nat) (sleeps : List Nat),
      k < pages.length →
      (pages.getD k []).length < limit →
      (∀ i ∈ List.range k, limit ≤ (pages.getD i []).length) →
      tradesLoop limit acc backoff reqs sleeps (pages.map Resp.success)
        = ⟨true, acc ++ (pages.take (k + 1)).flatten, sleeps, 1,
            reqs + (k + 1),
            some (acc ++ (pages.take (k + 1)).flatten).length, false⟩ := by
  intro k
  induction k with
  | zero =>
    intro pages acc backoff reqs sleeps hk hshort _
    match pages with
    | [] => simp at hk
    | p :: ps =>
      simp only [List.getD_cons_zero] at hshort
      match p with
      | [] =>
        simp [tradesLoop]
      | c :: cs =>
        simp only [List.map_cons, tradesLoop, List.isEmpty_cons,
          Bool.false_eq_true, if_false, if_pos hshort]
        simp [List.take_succ_cons, List.length_append]
  | succ k ih =>
    intro pages acc backoff reqs sleeps hk hshort hfull
    match pages with
    | [] => simp at hk
    | p :: ps =>
      have hp : limit ≤ p.length := by
        have := hfull 0 (List.mem_range.mpr (Nat.succ_pos k))
        simpa using this
      match p with
      | [] => simp at hp; omega
      | c :: cs =>
        have hnotshort : ¬((c :: cs).length < limit) := not_lt.mpr hp
        simp only [List.map_cons, tradesLoop, List.isEmpty_cons,
          Bool.false_eq_true, if_false, if_neg hnotshort]
        have hk2 : k < ps.length := by simpa using hk
        have hshort2 : (ps.getD k []).length < limit := by
          simpa using hshort
        have hfull2 : ∀ i ∈ List.range k, limit ≤ (ps.getD i []).length := by
          intro i hi
          have := hfull (i + 1)
            (List.mem_range.mpr (Nat.succ_lt_succ (List.mem_range.mp hi)))
          simpa using this
        rw [ih ps (acc ++ (c :: cs)) 1 (reqs + 1) sleeps hk2 hshort2 hfull2]
        simp [List.take_succ_cons, List.flatten_cons, List.append_assoc]
        omega

/-- Generic run of the events listing loop over a script of successful
pages, under the same first-short-page hypotheses: every record of pages
`0..k` is saved (the short page included; an empty short page is simply not
written as a file, contributing no records) and `k + 1` requests are
issued. -/
theorem eventsLoop_success_script (limit : Nat) (hlim : 0 < limit) :
    ∀ (k : Nat) (pages : List (List α)) (saved : List (List α)) (reqs : Nat),
      k < pages.length →
      (pages.getD k []).length < limit →
      (∀ i ∈ List.range k, limit ≤ (pages.getD i []).length) →
      (eventsLoop limit saved reqs (pages.map Resp.success)).saved.flatten
          = saved.flatten ++ (pages.take (k + 1)).flatten
        ∧ (eventsLoop limit saved reqs (pages.map Resp.success)).requests
          = reqs + (k + 1)
        ∧ (eventsLoop limit saved reqs (pages.map Resp.success)).stuck
          = false := by
  intro k
  induction k with
  | zero =>
    intro pages saved reqs hk hshort _
    match pages with
    | [] => simp at hk
    | p :: ps =>
      simp only [List.getD_cons_zero] at hshort
      match p with
      | [] =>
        simp [eventsLoop]
      | c :: cs =>
        simp only [List.map_cons, eventsLoop, List.isEmpty_cons,
          Bool.false_eq_true, if_false, if_pos hshort]
        simp [List.take_succ_cons]
  | succ k ih =>
    intro pages saved reqs hk hshort hfull
    match pages with
    | [] => simp at hk
    | p :: ps =>
      have hp : limit ≤ p.length := by
        have := hfull 0 (List.mem_range.mpr (Nat.succ_pos k))
        simpa using this
      match p with
      | [] => simp at hp; omega
      | c :: cs =>
        have hnotshort : ¬((c :: cs).length < limit) := not_lt.mpr hp
        simp only [List.map_cons, eventsLoop, List.isEmpty_cons,
          Bool.false_eq_true, if_false, if_neg hnotshort]
        have hk2 : k < ps.length := by simpa using hk
        have hshort2 : (ps.getD k []).length < limit := by
          simpa using hshort
        have hfull2 : ∀ i ∈ List.range k, limit ≤ (ps.getD i []).length := by
          intro i hi
          have := hfull (i + 1)
            (List.mem_range.mpr (Nat.succ_lt_succ (List.mem_range.mp hi)))
          simpa using this
        obtain ⟨h1, h2, h3⟩ :=
          ih ps (saved ++ [c :: cs]) (reqs + 1) hk2 hshort2 hfull2
        refine ⟨?_, ?_, h3⟩
        · rw [h1]
          simp [List.take_succ_cons, List.flatten_cons, List.append_assoc]
        · rw [h2]; omega

/-- C8.  Both page walkers persist every record of every fetched page and
stop exactly at the first page shorter than the requested page size, that
page included: over a script whose pages before index `k` are full-sized and
whose page `k` is short, the trades walker writes exactly the concatenation
of pages `0..k`, returns its length as the success count, and issues exactly
`k + 1` requests (no further page is requested); the events walker saves the
same records in `k + 1` requests. -/
theorem c8_page_walker_short_page_stops (cid : PyStr) (limit k : Nat)
    (pages : List (List Nat)) (hlim : 0 < limit) (hk : k < pages.length)
    (hshort : (pages.getD k []).length < limit)
    (hfull : ∀ i ∈ List.range k, limit ≤ (pages.getD i []).length) :
    (downloadAndSaveTrades cid limit (pages.map Resp.success)).written
        = (pages.take (k + 1)).flatten
    ∧ (downloadAndSaveTrades cid limit (pages.map Resp.success)).requests
        = k + 1
    ∧ (downloadAndSaveTrades cid limit (pages.map Resp.success)).result
        = some (pages.take (k + 1)).flatten.length
    ∧ (eventsLoop limit [] 0 (pages.map Resp.success)).saved.flatten
        = (pages.take (k + 1)).flatten
    ∧ (eventsLoop limit [] 0 (pages.map Resp.success)).requests = k + 1 := by
  have ht :=
    tradesLoop_success_script limit hlim k pages [] 1 0 [] hk hshort hfull
  have he :=
    eventsLoop_success_script limit hlim k pages [] 0 hk hshort hfull
  rw [downloadAndSaveTrades, ht]
  refine ⟨by simp, by simp, by simp, ?_, ?_⟩
  · rw [he.1]; simp
  · rw [he.2.1]; omega

set_option maxRecDepth 8000

/-- C8 witness: the spec's test vector — pages of sizes 100, 100, 37 under
page size 100.  Exactly 237 records are persisted and exactly three
requests are issued. -/
theorem c8_page_walker_short_page_stops_witness :
    ((0 : Nat) < 100
      ∧ 2 < ([List.replicate 100 (0 : Nat), List.replicate 100 0,
          List.replicate 37 0]).length
      ∧ (([List.replicate 100 (0 : Nat), List.replicate 100 0,
          List.replicate 37 0]).getD 2 []).length < 100
      ∧ ∀ i ∈ List.range 2,
          100 ≤ (([List.replicate 100 (0 : Nat), List.replicate 100 0,
            List.replicate 37 0]).getD i []).length)
    ∧ (downloadAndSaveTrades (str "c") 100
        (([List.replicate 100 (0 : Nat), List.replicate 100 0,
          List.replicate 37 0]).map Resp.success)).requests = 3
    ∧ (downloadAndSaveTrades (str "c") 100
        (([List.replicate 100 (0 : Nat), List.replicate 100 0,
          List.replicate 37 0]).map Resp.success)).written.length = 237
    ∧ (downloadAndSaveTrades (str "c") 100
        (([List.replicate 100 (0 : Nat), List.replicate 100 0,
          List.replicate 37 0]).map Resp.success)).result = some 237 :=
  ⟨⟨by decide, by decide, by decide, by decide⟩,
    (c8_page_walker_short_page_stops (str "c") 100 2
      [List.replicate 100 0, List.replicate 100 0, List.replicate 37 0]
      (by decide) (by decide) (by decide) (by decide)).2.1,
    by decide, by decide⟩

/-! ## Dict lemmas for claim C4 -/

/-- `dictFind` after `dictInsert`: the inserted key now maps to the new
value; every other key is untouched. -/
theorem dictFind_dictInsert (d : Dict) (k2 : PyStr) (v : Market)
    (k : PyStr) :
    dictFind (dictInsert d k2 v) k
      = if k = k2 then some v else dictFind d k := by
  induction d with
  | nil =>
    by_cases h : k = k2
    · simp [dictInsert, dictFind, List.find?, h]
    · simp [dictInsert, dictFind, List.find?, h, Ne.symm h]
  | cons p rest ih =>
    by_cases h1 : p.1 = k2
    · by_cases h2 : k = k2
      · simp [dictInsert, dictFind, List.find?, h1, h2]
      · simp [dictInsert, dictFind, List.find?, h1, h2, Ne.symm h2]
    · by_cases h3 : p.1 = k
      · have hk2 : ¬(k = k2) := fun h => h1 (h3.trans h)
        simp [dictInsert, dictFind, List.find?, h1, h3, hk2]
      · simp only [dictInsert, if_neg h1]
        simp only [dictFind, List.find?] at ih ⊢
        have hd : (decide (p.1 = k)) = false := by simp [h3]
        rw [hd]
        simpa [dictFind] using ih

/-- Every key of `dictInsert d k v` is `k` or a key of `d`. -/
theorem dictInsert_keys_subset (d : Dict) (k : PyStr) (v : Market) :
    ∀ x ∈ (dictInsert d k v).map Prod.fst, x = k ∨ x ∈ d.map Prod.fst := by
  induction d with
  | nil => simp [dictInsert]
  | cons p rest ih =>
    by_cases h : p.1 = k
    · simp only [dictInsert, if_pos h, List.map_cons, List.mem_cons]
      rintro x (hx | hx)
      · exact Or.inl hx
      · exact Or.inr (Or.inr hx)
    · simp only [dictInsert, if_neg h, List.map_cons, List.mem_cons]
      rintro x (hx | hx)
      · exact Or.inr (Or.inl hx)
      · rcases ih x hx with h2 | h2
        · exact Or.inl h2
        · exact Or.inr (Or.inr h2)

/-- `dictInsert` preserves the key-uniqueness invariant of a Python dict. -/
theorem dictInsert_keys_nodup (d : Dict) (k : PyStr) (v : Market)
    (h : (d.map Prod.fst).Nodup) :
    ((dictInsert d k v).map Prod.fst).Nodup := by
  induction d with
  | nil => simp [dictInsert]
  | cons p rest ih =>
    rw [List.map_cons, List.nodup_cons] at h
    by_cases hpk : p.1 = k
    · simp only [dictInsert, if_pos hpk, List.map_cons, List.nodup_cons]
      exact ⟨hpk ▸ h.1, h.2⟩
    · simp only [dictInsert, if_neg hpk, List.map_cons, List.nodup_cons]
      refine ⟨?_, ih h.2⟩
      intro hmem
      rcases dictInsert_keys_subset rest k v p.1 hmem with h2 | h2
      · exact hpk h2
      · exact h.1 h2

/-- Folding `dictInsert` over any assignment stream preserves key
uniqueness. -/
theorem foldl_dictInsert_keys_nodup :
    ∀ (l : List (PyStr × Market)) (d : Dict),
      (d.map Prod.fst).Nodup →
      ((l.foldl (fun d p => dictInsert d p.1 p.2) d).map Prod.fst).Nodup := by
  intro l
  induction l with
  | nil => intro d h; exact h
  | cons p ps ih =>
    intro d h
    exact ih _ (dictInsert_keys_nodup _ _ _ h)

/-- A left fold over a `flatMap` is the nested left fold. -/
theorem foldl_flatMap (f : β → List γ) (g : δ → γ → δ) :
    ∀ (l : List β) (init : δ),
      (l.flatMap f).foldl g init
        = l.foldl (fun acc b => (f b).foldl g acc) init := by
  intro l
  induction l with
  | nil => intro init; rfl
  | cons b bs ih =>
    intro init
    simp only [List.flatMap_cons, List.foldl_append]
    exact ih _

/-- Left folds of pointwise-equal step functions agree. -/
theorem foldl_congr_fun (g h : δ → β → δ) (hgh : ∀ d b, g d b = h d b) :
    ∀ (l : List β) (init : δ), l.foldl g init = l.foldl h init := by
  intro l
  induction l with
  | nil => intro init; rfl
  | cons b bs ih =>
    intro init
    simp only [List.foldl_cons, hgh]
    exact ih _

/-- The token loop over one market is the `dictInsert` fold over that
market's assignment occurrences. -/
theorem insertMarketTokens_eq (d : Dict) (m : Market) :
    insertMarketTokens d m
      = ((tokensOf m).map (fun t => (t, m))).foldl
          (fun d p => dictInsert d p.1 p.2) d := by
  rw [List.foldl_map]
  rfl

/-- The market loop over one event is the `dictInsert` fold over the event's
assignment occurrences. -/
theorem insertEventMarkets_eq (d : Dict) (e : Event) :
    insertEventMarkets d e
      = ((e.markets.getD []).flatMap
          (fun m => (tokensOf m).map (fun t => (t, m)))).foldl
          (fun d p => dictInsert d p.1 p.2) d := by
  rw [foldl_flatMap]
  exact foldl_congr_fun _ _ insertMarketTokens_eq _ _

/-- The whole of `get_all_markets` is the `dictInsert` fold over its
assignment occurrence stream. -/
theorem insertEventsDict_eq (d : Dict) (events : List Event) :
    insertEventsDict d events
      = (occsOf events).foldl (fun d p => dictInsert d p.1 p.2) d := by
  rw [occsOf, foldl_flatMap]
  exact foldl_congr_fun _ _ insertEventMarkets_eq _ _

/-- Lookup after a `dictInsert` fold: the value of the *last* assignment to
the key, or the prior binding when the stream never assigns it. -/
theorem dictFind_foldl_dictInsert (k : PyStr) :
    ∀ (l : List (PyStr × Market)) (d : Dict),
      dictFind (l.foldl (fun d p => dictInsert d p.1 p.2) d) k
        = match (l.filter (fun p => p.1 = k)).getLast? with
          | some p => some p.2
          | none => dictFind d k := by
  intro l
  induction l using List.reverseRecOn with
  | nil => intro d; rfl
  | append_singleton l p ih =>
    intro d
    rw [List.foldl_append, List.foldl_cons, List.foldl_nil,
      dictFind_dictInsert, List.filter_append]
    by_cases h : p.1 = k
    · rw [if_pos h.symm]
      have : List.filter (fun p => decide (p.1 = k)) [p] = [p] := by
        simp [h]
      rw [this, List.getLast?_concat]
    · rw [if_neg (fun hk => h hk.symm)]
      have : List.filter (fun p => decide (p.1 = k)) [p] = [] := by
        simp [h]
      rw [this, List.append_nil]
      exact ih d

/-- C4 (amended).  The price-history enumeration yields one target per
distinct token id — the enumerated keys are duplicate-free — but the stored
metadata comes from the *last* occurrence of the identifier in the event
files, not the first (the dict assignment overwrites).  The trades
enumeration performs no de-duplication at all: every occurrence of a
condition id yields its own entry, so a repeated identifier appears
repeatedly (here, twice with its two volumes). -/
theorem c4_dedup_amended :
    (∀ events : List Event, ((getAllMarkets events).map Prod.fst).Nodup)
    ∧ (∀ (events : List Event) (k : PyStr),
        dictFind (getAllMarkets events) k
          = match ((occsOf events).filter (fun p => p.1 = k)).getLast? with
            | some p => some p.2
            | none => none)
    ∧ marketsOfEvents
        [⟨some [⟨some (str "c"), some 5, none⟩,
          ⟨some (str "c"), some 7, none⟩]⟩]
      = [⟨str "c", 5⟩, ⟨str "c", 7⟩] := by
  refine ⟨?_, ?_, by decide⟩
  · intro events
    rw [getAllMarkets, insertEventsDict_eq]
    exact foldl_dictInsert_keys_nodup _ [] (by simp)
  · intro events k
    rw [getAllMarkets, insertEventsDict_eq, dictFind_foldl_dictInsert]
    cases ((occsOf events).filter (fun p => p.1 = k)).getLast? <;> rfl

/-- C5 (amended).  A malformed input artifact is skipped — enumeration of
the remaining artifacts is unaffected — in the trades enumeration, whose
`json.load` is guarded by `except json.JSONDecodeError: continue`.  In the
price-history enumeration the decode error is uncaught: any malformed event
file makes the whole enumeration raise, extracting nothing. -/
theorem c5_malformed_amended :
    (∀ (fs1 fs2 : List (Option (List Event))),
      tradesEnumFiles (fs1 ++ none :: fs2) = tradesEnumFiles (fs1 ++ fs2))
    ∧ (∀ files : List (Option (List Event)),
      none ∈ files → pricesEnumFiles files = none) := by
  constructor
  · intro fs1 fs2
    unfold tradesEnumFiles
    rw [List.foldl_append, List.foldl_append, List.foldl_cons]
  · have key : ∀ fs : List (Option (List Event)),
        (fs.foldl
          (fun acc f =>
            match acc, f with
            | none, _ => none
            | some _, none => none
            | some d, some events => some (insertEventsDict d events))
          none = none)
        ∧ ∀ acc : Option Dict, none ∈ fs →
          fs.foldl
            (fun acc f =>
              match acc, f with
              | none, _ => none
              | some _, none => none
              | some d, some events => some (insertEventsDict d events))
            acc = none := by
      intro fs
      induction fs with
      | nil => exact ⟨rfl, by simp⟩
      | cons f fs ih =>
        constructor
        · rw [List.foldl_cons]
          exact ih.1
        · intro acc h
          rw [List.foldl_cons]
          rcases List.mem_cons.mp h with h1 | h1
          · cases acc <;> rw [← h1] <;> exact ih.1
          · cases acc with
            | none => exact ih.1
            | some d =>
              cases f with
              | none => exact ih.1
              | some events => exact ih.2 _ h1
    intro files h
    exact (key files).2 (some []) h

/-- C5 witness: a malformed middle file is invisible to the trades
enumeration, and a malformed only file makes the prices enumeration raise. -/
theorem c5_malformed_amended_witness :
    (tradesEnumFiles
        ([some [⟨some [⟨some (str "c"), some 5, none⟩]⟩]] ++ none ::
          [some [⟨some [⟨some (str "d"), some 6, none⟩]⟩]])
      = tradesEnumFiles
        ([some [⟨some [⟨some (str "c"), some 5, none⟩]⟩]]
          ++ [some [⟨some [⟨some (str "d"), some 6, none⟩]⟩]]))
    ∧ (none : Option (List Event)) ∈ [(none : Option (List Event))]
    ∧ pricesEnumFiles [none] = none :=
  ⟨c5_malformed_amended.1 _ _, by decide,
    c5_malformed_amended.2 [none] (by decide)⟩

/-! ## Claim C9: volume filtering -/

/-- Truncating a tenth of a natural number is its floor division by ten;
this is the exact-arithmetic reading of Python's `int(count * 0.1)` (the
floating-point product of a list length and `0.1` rounds to a value whose
truncation agrees with the floor). -/
theorem floor_tenth (n : Nat) : (⌊(n : ℚ) * (1 / 10)⌋).toNat = n / 10 := by
  have hfloor : ⌊(n : ℚ) * (1 / 10)⌋ = ((n / 10 : Nat) : ℤ) := by
    rw [Int.floor_eq_iff, Int.cast_natCast]
    constructor
    · rw [mul_one_div, le_div_iff₀ (by norm_num : (0 : ℚ) < 10)]
      exact_mod_cast Nat.div_mul_le_self n 10
    · rw [mul_one_div, div_lt_iff₀ (by norm_num : (0 : ℚ) < 10)]
      have hlt : n < (n / 10) * 10 + 10 := by
        have hm : n % 10 < 10 := Nat.mod_lt _ (by norm_num)
        omega
      rw [add_mul, one_mul]
      exact_mod_cast hlt
  rw [hfloor, Int.toNat_natCast]

/-- C9.  `filter_top_markets` at percentile `0.10` on a nonempty list with
pairwise-distinct volumes returns a set of markets of size
`floor(count / 10)` — or exactly one when that floor is zero — and those are
exactly the highest-volume markets: the input is a permutation of the result
followed by a remainder in which every volume is strictly below every
returned volume. -/
theorem c9_filter_top_markets (markets : List MarketV)
    (hne : markets ≠ [])
    (hdist : markets.Pairwise (fun a b => a.volume ≠ b.volume)) :
    (filterTopMarkets markets (1 / 10)).length
        = (if markets.length / 10 = 0 then 1 else markets.length / 10)
    ∧ ∃ rest : List MarketV,
        markets.Perm (filterTopMarkets markets (1 / 10) ++ rest)
        ∧ ∀ x ∈ filterTopMarkets markets (1 / 10), ∀ y ∈ rest,
            y.volume < x.volume := by
  have hie : markets.isEmpty = false := by
    cases markets with
    | nil => exact absurd rfl hne
    | cons a l => rfl
  have hpos : 0 < markets.length := List.length_pos.mpr hne
  have hperm : (List.insertionSort volGE markets).Perm markets :=
    List.perm_insertionSort volGE markets
  have hslen : (List.insertionSort volGE markets).length = markets.length :=
    hperm.length_eq
  have hcond : ((markets.length / 10 = 0 ∧ 0 < markets.length))
      = (markets.length / 10 = 0) := by
    simp [hpos]
  have hcut : filterTopMarkets markets (1 / 10)
      = (List.insertionSort volGE markets).take
          (if markets.length / 10 = 0 then 1 else markets.length / 10) := by
    simp only [filterTopMarkets, hie, Bool.false_eq_true, if_false,
      floor_tenth, hcond]
  have hkle : (if markets.length / 10 = 0 then 1 else markets.length / 10)
      ≤ (List.insertionSort volGE markets).length := by
    rw [hslen]
    by_cases h : markets.length / 10 = 0
    · rw [if_pos h]; omega
    · rw [if_neg h]; exact Nat.div_le_self _ _
  have hsorted : List.Sorted volGE (List.insertionSort volGE markets) :=
    List.sorted_insertionSort volGE markets
  refine ⟨?_, ?_⟩
  · rw [hcut, List.length_take]
    exact Nat.min_eq_left hkle
  · refine ⟨(List.insertionSort volGE markets).drop
      (if markets.length / 10 = 0 then 1 else markets.length / 10), ?_, ?_⟩
    · rw [hcut, List.take_append_drop]
      exact hperm.symm
    · have hpermsplit : markets.Perm
          (filterTopMarkets markets (1 / 10)
            ++ (List.insertionSort volGE markets).drop
              (if markets.length / 10 = 0 then 1
                else markets.length / 10)) := by
        rw [hcut, List.take_append_drop]
        exact hperm.symm
      have hdist2 : (filterTopMarkets markets (1 / 10)
          ++ (List.insertionSort volGE markets).drop
            (if markets.length / 10 = 0 then 1
              else markets.length / 10)).Pairwise
          (fun a b => a.volume ≠ b.volume) :=
        (hpermsplit.pairwise_iff (fun hxy => Ne.symm hxy)).mp hdist
      have hsorted2 : ((List.insertionSort volGE markets).take
          (if markets.length / 10 = 0 then 1 else markets.length / 10)
          ++ (List.insertionSort volGE markets).drop
            (if markets.length / 10 = 0 then 1
              else markets.length / 10)).Pairwise volGE := by
        rw [List.take_append_drop]
        exact hsorted
      intro x hx y hy
      have hle : volGE x y :=
        (List.pairwise_append.mp hsorted2).2.2 x (by rw [← hcut]; exact hx)
          y hy
      have hneq : x.volume ≠ y.volume :=
        (List.pairwise_append.mp hdist2).2.2 x hx y hy
      exact lt_of_le_of_ne hle (Ne.symm hneq)

/-- C9 witness: the spec's small instance — three markets with distinct
volumes yield exactly one market (the highest-volume one); a hundred markets
with distinct volumes yield exactly ten. -/
theorem c9_filter_top_markets_witness :
    (([⟨str "a", 5⟩, ⟨str "b", 9⟩, ⟨str "c", 1⟩] : List MarketV) ≠ []
      ∧ ([⟨str "a", 5⟩, ⟨str "b", 9⟩, ⟨str "c", 1⟩] :
          List MarketV).Pairwise (fun a b => a.volume ≠ b.volume))
    ∧ (filterTopMarkets [⟨str "a", 5⟩, ⟨str "b", 9⟩, ⟨str "c", 1⟩]
        (1 / 10)).length = 1
    ∧ (filterTopMarkets
        ((List.range 100).map (fun i => ⟨str "m", (i : Int)⟩))
        (1 / 10)).length = 10 :=
  ⟨⟨by decide, by decide⟩,
    (c9_filter_top_markets [⟨str "a", 5⟩, ⟨str "b", 9⟩, ⟨str "c", 1⟩]
      (by decide) (by decide)).1,
    (c9_filter_top_markets
      ((List.range 100).map (fun i => ⟨str "m", (i : Int)⟩))
      (by decide) (by decide)).1⟩

end Cmhss
